import Mathlib

/-!
Verification development for the Slack/DeepL translation relay server
(`src/server.ts`).  The definitions below are a shallow embedding of the
server's logic:

* the Markup Protector (`handleReactionAdded`, lines 102-139): two chained
  global regex replacements over the source message text;
* the Markup Restorer (lines 175-194): four chained global regex
  replacements over the translated text;
* language resolution from the reaction name (lines 59-72);
* the orchestration of one `reaction_added` event (lines 50-217) with the
  network collaborators (Slack fetches, DeepL) injected as data;
* the HTTP handler's signature verification (lines 229-270), including a
  full executable HMAC-SHA256.

JavaScript regex replacement is modelled precisely: matches are found
leftmost-first, scanning resumes after each match, replacement text is not
rescanned, `.` does not match line terminators, lazy/greedy quantifier
semantics are reproduced by the per-pattern matchers below.
-/

/-- Line terminators that JavaScript's `.` does not match. -/
def isNL (c : Char) : Bool :=
  c = '\n' || c = '\r' || c = '\u2028' || c = '\u2029'

/-- Character class `[a-z0-9_-]` used by the emoji shortcode patterns. -/
def isEmojiChar (c : Char) : Bool :=
  ('a' ≤ c && c ≤ 'z') || ('0' ≤ c && c ≤ '9') || c = '_' || c = '-'

/-- `noNLb l` : no line terminator occurs in `l` (so `.*` can span it). -/
def noNLb (l : List Char) : Bool := l.all (fun c => !isNL c)

/-- First character is `#` or `@`. -/
def headIsHashAt : List Char → Bool
  | c :: _ => c = '#' || c = '@'
  | [] => false

/-- First character is `!`. -/
def headIsBang : List Char → Bool
  | c :: _ => c = '!'
  | [] => false

/-- Strip the literal `pre` from the front of `s`, if present. -/
def dropPref : List Char → List Char → Option (List Char)
  | [], s => some s
  | _ :: _, [] => none
  | p :: ps, c :: cs => if p = c then dropPref ps cs else none

/-- Lazy scan `(.*?)lit`: consume characters (no line terminators) up to the
    first occurrence of the literal `lit`; return the consumed payload and
    the remainder after `lit`.  `none` if a line terminator or the end of
    input is reached first. -/
def scanTo (lit : List Char) : List Char → Option (List Char × List Char)
  | [] => none
  | c :: cs =>
    match dropPref lit (c :: cs) with
    | some r => some ([], r)
    | none =>
      if isNL c then none
      else match scanTo lit cs with
        | some (p, r) => some (c :: p, r)
        | none => none

/-- Greedy run `[a-z0-9_-]*`: maximal emoji-character run and the rest. -/
def spanEmoji : List Char → (List Char × List Char)
  | [] => ([], [])
  | c :: cs =>
    if isEmojiChar c then
      let (run, rest) := spanEmoji cs
      (c :: run, rest)
    else ([], c :: cs)

/-- Leftmost-match search: try the position matcher `p` at every position
    of `s` from the left; on success return the text before the match, the
    match data, and the remainder after the match. -/
def splitFirst (p : List Char → Option (α × List Char)) :
    List Char → Option (List Char × α × List Char)
  | [] =>
    match p [] with
    | some (a, r) => some ([], a, r)
    | none => none
  | c :: cs =>
    match p (c :: cs) with
    | some (a, r) => some ([], a, r)
    | none =>
      match splitFirst p cs with
      | some (pre, a, r) => some (c :: pre, a, r)
      | none => none

/-- Fuelled driver for a global regex replacement: repeatedly find the
    leftmost match, emit the replacement `f`, and continue after the match
    (replacement text is never rescanned, as with JS `String.replace`). -/
def replaceAllFuel (p : List Char → Option (α × List Char))
    (f : α → List Char) : Nat → List Char → List Char
  | 0, s => s
  | fuel + 1, s =>
    match splitFirst p s with
    | none => s
    | some (pre, a, r) => pre ++ f a ++ replaceAllFuel p f fuel r

/-- Global regex replacement (`String.replace` with a `/g` regex whose
    matches are nonempty, so at most `s.length` matches occur). -/
def replaceAll (p : List Char → Option (α × List Char))
    (f : α → List Char) (s : List Char) : List Char :=
  replaceAllFuel p f s.length s

/-! ### The Markup Protector (server.ts lines 102-139) -/

/-- Position matcher for `/<(.*?)>/`: a `<`, then lazily the payload up to
    the first `>` (line terminators abort the match).  Match data is the
    payload (capture group 1). -/
def pAngle : List Char → Option (List Char × List Char)
  | '<' :: cs => scanTo ['>'] cs
  | _ => none

/-- Test of `/^[#@].*$/` (line 104): first char `#` or `@` and, because of
    the non-multiline `$`, no line terminator anywhere in the payload. -/
def reTestMention (m : List Char) : Bool :=
  headIsHashAt m && noNLb m

/-- Exec of `/^([#@].*)$/` (line 105): group 1 is the whole payload. -/
def reExecMention (m : List Char) : Option (List Char) :=
  if reTestMention m then some m else none

/-- Test of `/^!subteam.*$/` (line 111). -/
def reTestSubteam (m : List Char) : Bool :=
  "!subteam".data.isPrefixOf m && noNLb m

/-- Test of `/^!date.*$/` (line 114). -/
def reTestDate (m : List Char) : Bool :=
  "!date".data.isPrefixOf m && noNLb m

/-- Exec of `/^(!date.*)$/` (line 115): group 1 is the whole payload. -/
def reExecDate (m : List Char) : Option (List Char) :=
  if reTestDate m then some m else none

/-- Test of `/^!.*$/` (line 121). -/
def reTestSpecial (m : List Char) : Bool :=
  headIsBang m && noNLb m

/-- Exec of `/^!(.*?)(?:\|.*)?$/` (line 122): the lazy group 1 is the
    portion after `!` up to the first `|` (or to the end if none). -/
def reExecSpecial (m : List Char) : Option (List Char) :=
  if reTestSpecial m then some ((m.drop 1).takeWhile (fun c => c ≠ '|'))
  else none

/-- Test of `/^.*?\|.*$/` (line 128): contains a `|`, no line terminator. -/
def reTestLink (m : List Char) : Bool :=
  m.contains '|' && noNLb m

/-- Exec of `/^(.*?)\|(.*)$/` (line 129): split at the first `|`;
    group 1 is the part before it, group 2 everything after it. -/
def reExecLink (m : List Char) : Option (List Char × List Char) :=
  if reTestLink m then
    some (m.takeWhile (fun c => c ≠ '|'),
          (m.dropWhile (fun c => c ≠ '|')).drop 1)
  else none

/-- The replacement callback of the first `.replace` (lines 103-136),
    applied to each matched `<payload>`'s payload. -/
def protectPayload (m : List Char) : List Char :=
  if reTestMention m then
    match reExecMention m with
    | some g => "<mrkdwn>".data ++ g ++ "</mrkdwn>".data
    | none => []
  else if reTestSubteam m then "@[subteam mention removed]".data
  else if reTestDate m then
    match reExecDate m with
    | some g => "<mrkdwn>".data ++ g ++ "</mrkdwn>".data
    | none => []
  else if reTestSpecial m then
    match reExecSpecial m with
    | some g => "<ignore>@".data ++ g ++ "</ignore>".data
    | none => "<ignore>@[special mention]</ignore>".data
  else if reTestLink m then
    match reExecLink m with
    | some (u, t) => "<a href=\"".data ++ u ++ "\">".data ++ t ++ "</a>".data
    | none => []
  else "<mrkdwn>".data ++ m ++ "</mrkdwn>".data

/-- First protect pass: `.replace(/<(.*?)>/g, ...)` (lines 103-136). -/
def angleProtectPass (s : List Char) : List Char :=
  replaceAll pAngle protectPayload s

/-- Position matcher for `/:([a-z0-9_-]+):/`: a `:`, a nonempty greedy run
    of emoji characters, a closing `:` (both colons are consumed). -/
def pEmoji : List Char → Option (List Char × List Char)
  | ':' :: cs =>
    match spanEmoji cs with
    | (run, rest) =>
      if run.isEmpty then none
      else
        match rest with
        | ':' :: r => some (run, r)
        | _ => none
  | _ => none

/-- Second protect pass: `.replace(/:([a-z0-9_-]+):/g, ...)` (137-138). -/
def emojiProtectPass (s : List Char) : List Char :=
  replaceAll pEmoji (fun run => "<emoji>".data ++ run ++ "</emoji>".data) s

/-- The Markup Protector: `targetText` construction (lines 102-139). -/
def protectL (s : List Char) : List Char :=
  emojiProtectPass (angleProtectPass s)

/-- The Markup Protector on strings. -/
def protect (s : String) : String := ⟨protectL s.data⟩

/-! ### The Markup Restorer (server.ts lines 175-194) -/

/-- Position matcher for `/<emoji>([a-z0-9_-]+)<\/emoji>/`: the literal
    `<emoji>`, a nonempty greedy emoji-character run, the literal
    `</emoji>`.  Match data is the run (group 1). -/
def pREmoji (s : List Char) : Option (List Char × List Char) :=
  match dropPref "<emoji>".data s with
  | none => none
  | some s₁ =>
    match spanEmoji s₁ with
    | (run, rest) =>
      if run.isEmpty then none
      else
        match dropPref "</emoji>".data rest with
        | none => none
        | some r => some (run, r)

/-- First restore pass: `.replace(/<emoji>([a-z0-9_-]+)<\/emoji>/g, ...)`
    (lines 176-178), producing `:shortcode:`. -/
def emojiRestorePass (s : List Char) : List Char :=
  replaceAll pREmoji (fun run => ':' :: run ++ [':']) s

/-- Position matcher for `/<mrkdwn>(.*?)<\/mrkdwn>/`: the literal
    `<mrkdwn>`, then lazily the payload up to the first `</mrkdwn>`. -/
def pMrkdwn (s : List Char) : Option (List Char × List Char) :=
  match dropPref "<mrkdwn>".data s with
  | none => none
  | some s₁ => scanTo "</mrkdwn>".data s₁

/-- Second restore pass: `.replace(/<mrkdwn>(.*?)<\/mrkdwn>/g, ...)`
    (lines 179-181), producing `<payload>`. -/
def mrkdwnRestorePass (s : List Char) : List Char :=
  replaceAll pMrkdwn (fun g => '<' :: g ++ ['>']) s

/-- After `<a href="` was consumed: find the lazy end of the href (the
    first `">` from which a `</a>` is reachable), then lazily the display
    text up to the first `</a>`.  A failed `">` candidate is backtracked
    past, exactly as the regex engine grows the lazy `(?:.*?)` group. -/
def scanHref : List Char → Option ((List Char × List Char) × List Char)
  | [] => none
  | c :: cs =>
    match
      (match dropPref "\">".data (c :: cs) with
       | some s₂ =>
         match scanTo "</a>".data s₂ with
         | some (t, r) => some (([], t), r)
         | none => none
       | none => none) with
    | some ht => some ht
    | none =>
      if isNL c then none
      else
        match scanHref cs with
        | some ((h, t), r) => some ((c :: h, t), r)
        | none => none

/-- Position matcher for `/<a href="(.*?)">(.*?)<\/a>/`: match data is the
    pair (href group, display-text group). -/
def pAnchorCore (s : List Char) : Option ((List Char × List Char) × List Char) :=
  match dropPref "<a href=\"".data s with
  | none => none
  | some s₁ => scanHref s₁

/-- The anchor tag pair assembled back into its source text. -/
def anchorText (h t : List Char) : List Char :=
  "<a href=\"".data ++ h ++ "\">".data ++ t ++ "</a>".data

/-- Position matcher for `/(<a href="(?:.*?)">(?:.*?)<\/a>)/` (line 183):
    group 1 is the entire matched tag pair. -/
def pAnchor (s : List Char) : Option (List Char × List Char) :=
  match pAnchorCore s with
  | some ((h, t), r) => some (anchorText h t, r)
  | none => none

/-- `match.match(/<a href="(.*?)">(.*?)<\/a>/)` (line 185): unanchored
    first-match search returning the two capture groups. -/
def anchorRematch (m : List Char) : Option (List Char × List Char) :=
  match splitFirst pAnchorCore m with
  | some (_, ht, _) => some ht
  | none => none

/-- The anchor callback (lines 184-190): re-parse the matched tag pair and
    produce `<URL|display text>`; empty string if the re-match fails. -/
def anchorCb (m : List Char) : List Char :=
  match anchorRematch m with
  | some (h, t) => '<' :: h ++ '|' :: t ++ ['>']
  | none => []

/-- Third restore pass (lines 182-191). -/
def anchorRestorePass (s : List Char) : List Char :=
  replaceAll pAnchor anchorCb s

/-- Position matcher for `/<ignore>(.*?)<\/ignore>/`. -/
def pIgnore (s : List Char) : Option (List Char × List Char) :=
  match dropPref "<ignore>".data s with
  | none => none
  | some s₁ => scanTo "</ignore>".data s₁

/-- Fourth restore pass: `.replace(/<ignore>(.*?)<\/ignore>/g, ...)`
    (lines 192-194), unwrapping to the raw content. -/
def ignoreRestorePass (s : List Char) : List Char :=
  replaceAll pIgnore (fun g => g) s

/-- The Markup Restorer: `translatedText` construction (lines 175-194),
    the four passes chained in source order. -/
def restoreL (s : List Char) : List Char :=
  ignoreRestorePass (anchorRestorePass (mrkdwnRestorePass (emojiRestorePass s)))

/-- The Markup Restorer on strings. -/
def restore (s : String) : String := ⟨restoreL s.data⟩

/-- Modelled from the spec (§4.4 "Order matters"): the restorer that claim
    C6 describes, in which the anchor rule is applied as a single atomic
    pass *before any* unwrapping of the other tagged spans is performed. -/
def restoreAnchorFirstL (s : List Char) : List Char :=
  ignoreRestorePass (mrkdwnRestorePass (emojiRestorePass (anchorRestorePass s)))

/-- The spec-described anchor-first restorer on strings. -/
def restoreAnchorFirst (s : String) : String := ⟨restoreAnchorFirstL s.data⟩

/-! ### Signature verification (server.ts lines 229-270)

`TextEncoder.encode` is UTF-8; `crypto.subtle.sign("HMAC", …)` with
SHA-256 is HMAC-SHA256 (FIPS 198-1 / FIPS 180-4), embedded executably
below with bytes and 32-bit words represented as `Nat`. -/

/-- UTF-8 encoding of one scalar value (`TextEncoder` semantics). -/
def utf8Char (c : Char) : List Nat :=
  let n := c.toNat
  if n < 128 then [n]
  else if n < 2048 then [192 + n / 64, 128 + n % 64]
  else if n < 65536 then [224 + n / 4096, 128 + n / 64 % 64, 128 + n % 64]
  else [240 + n / 262144, 128 + n / 4096 % 64, 128 + n / 64 % 64, 128 + n % 64]

/-- UTF-8 encoding of a string as a byte list (`new TextEncoder().encode`). -/
def utf8Bytes (s : String) : List Nat :=
  s.data.foldr (fun c acc => utf8Char c ++ acc) []

/-- Truncation to a 32-bit word. -/
def w32 (n : Nat) : Nat := n % 4294967296

/-- 32-bit right rotation. -/
def rotr32 (k x : Nat) : Nat := w32 ((x >>> k) ||| (x <<< (32 - k)))

/-- SHA-256 `Ch(e,f,g) = (e ∧ f) ⊕ (¬e ∧ g)`. -/
def shaCh (e f g : Nat) : Nat := (e &&& f) ^^^ ((e ^^^ 4294967295) &&& g)

/-- SHA-256 `Maj(a,b,c)`. -/
def shaMaj (a b c : Nat) : Nat := (a &&& b) ^^^ (a &&& c) ^^^ (b &&& c)

/-- SHA-256 big Σ₀. -/
def bigSigma0 (x : Nat) : Nat := rotr32 2 x ^^^ rotr32 13 x ^^^ rotr32 22 x

/-- SHA-256 big Σ₁. -/
def bigSigma1 (x : Nat) : Nat := rotr32 6 x ^^^ rotr32 11 x ^^^ rotr32 25 x

/-- SHA-256 small σ₀. -/
def smallSigma0 (x : Nat) : Nat := rotr32 7 x ^^^ rotr32 18 x ^^^ (x >>> 3)

/-- SHA-256 small σ₁. -/
def smallSigma1 (x : Nat) : Nat := rotr32 17 x ^^^ rotr32 19 x ^^^ (x >>> 10)

/-- The 64 SHA-256 round constants. -/
def sha256K : List Nat :=
  [1116352408, 1899447441, 3049323471, 3921009573, 961987163,
   1508970993, 2453635748, 2870763221, 3624381080, 310598401,
   607225278, 1426881987, 1925078388, 2162078206, 2614888103,
   3248222580, 3835390401, 4022224774, 264347078, 604807628,
   770255983, 1249150122, 1555081692, 1996064986, 2554220882,
   2821834349, 2952996808, 3210313671, 3336571891, 3584528711,
   113926993, 338241895, 666307205, 773529912, 1294757372,
   1396182291, 1695183700, 1986661051, 2177026350, 2456956037,
   2730485921, 2820302411, 3259730800, 3345764771, 3516065817,
   3600352804, 4094571909, 275423344, 430227734, 506948616,
   659060556, 883997877, 958139571, 1322822218, 1537002063,
   1747873779, 1955562222, 2024104815, 2227730452, 2361852424,
   2428436474, 2756734187, 3204031479, 3329325298]

/-- The SHA-256 initial hash value. -/
def sha256H0 : List Nat :=
  [1779033703, 3144134277, 1013904242, 2773480762,
   1359893119, 2600822924, 528734635, 1541459225]

/-- Big-endian 32-bit words from a byte list (length a multiple of 4). -/
def bytesToWords : List Nat → List Nat
  | a :: b :: c :: d :: r => (((a * 256 + b) * 256 + c) * 256 + d) :: bytesToWords r
  | _ => []

/-- Big-endian bytes of one 32-bit word. -/
def wordBytes (x : Nat) : List Nat :=
  [x / 16777216 % 256, x / 65536 % 256, x / 256 % 256, x % 256]

/-- Message-schedule extension: append `fuel` further words `W[i]`. -/
def extendW : Nat → List Nat → List Nat
  | 0, w => w
  | fuel + 1, w =>
    let n := w.length
    extendW fuel
      (w ++ [w32 (w.getD (n - 16) 0 + smallSigma0 (w.getD (n - 15) 0) +
                  w.getD (n - 7) 0 + smallSigma1 (w.getD (n - 2) 0))])

/-- One SHA-256 compression round on the state `[a,b,c,d,e,f,g,h]`,
    consuming one pair `(K[i], W[i])`. -/
def compressStep (st : List Nat) (kw : Nat × Nat) : List Nat :=
  match st with
  | [a, b, c, d, e, f, g, h] =>
    let t1 := w32 (h + bigSigma1 e + shaCh e f g + kw.1 + kw.2)
    let t2 := w32 (bigSigma0 a + shaMaj a b c)
    [w32 (t1 + t2), a, b, c, w32 (d + t1), e, f, g]
  | _ => st

/-- SHA-256 padding: `0x80`, zeros, and the 64-bit big-endian bit length,
    to a multiple of 64 bytes. -/
def sha256Pad (msg : List Nat) : List Nat :=
  let l := msg.length
  let bits := l * 8
  msg ++ 128 :: List.replicate ((64 - (l + 9) % 64) % 64) 0 ++
    [bits / 72057594037927936 % 256, bits / 281474976710656 % 256,
     bits / 1099511627776 % 256, bits / 4294967296 % 256,
     bits / 16777216 % 256, bits / 65536 % 256, bits / 256 % 256, bits % 256]

/-- Split into 64-byte blocks (fuelled; `fuel ≥ length` suffices). -/
def chunks64 : Nat → List Nat → List (List Nat)
  | _, [] => []
  | 0, _ => []
  | fuel + 1, l => l.take 64 :: chunks64 fuel (l.drop 64)

/-- Process one 512-bit block into the running hash `h`. -/
def sha256Block (h : List Nat) (blk : List Nat) : List Nat :=
  let w := extendW 48 (bytesToWords blk)
  let st := (sha256K.zip w).foldl compressStep h
  (h.zip st).map (fun xy => w32 (xy.1 + xy.2))

/-- SHA-256 of a byte list, as a 32-byte list. -/
def sha256 (msg : List Nat) : List Nat :=
  let padded := sha256Pad msg
  let hFin := (chunks64 padded.length padded).foldl sha256Block sha256H0
  hFin.foldr (fun x acc => wordBytes x ++ acc) []

/-- HMAC-SHA256 (FIPS 198-1, block size 64): key hashed if overlong, then
    zero-padded; inner pad `0x36`, outer pad `0x5c`. -/
def hmacSha256 (key msg : List Nat) : List Nat :=
  let k0 := if 64 < key.length then sha256 key else key
  let kp := k0 ++ List.replicate (64 - k0.length) 0
  sha256 ((kp.map (fun b => b ^^^ 92)) ++
          sha256 ((kp.map (fun b => b ^^^ 54)) ++ msg))

/-- Lowercase hex digit, as produced by JS `Number.toString(16)`. -/
def hexDigitChar (n : Nat) : Char :=
  if n < 10 then Char.ofNat (48 + n) else Char.ofNat (87 + n)

/-- `b.toString(16).padStart(2, "0")` for a byte `b < 256` (line 264):
    two lowercase hex digits, zero-padded. -/
def hexByte (b : Nat) : List Char := [hexDigitChar (b / 16), hexDigitChar (b % 16)]

/-- Hex encoding of a byte list (lines 263-265). -/
def bytesToHex (bs : List Nat) : List Char :=
  bs.foldr (fun b acc => hexByte b ++ acc) []

/-- `computedSignature` (lines 249-265): `"v0="` followed by the lowercase
    hex HMAC-SHA256 of the base string `v0:<timestamp>:<body>` under the
    signing secret. -/
def computedSignature (secret timestamp body : String) : String :=
  ⟨"v0=".data ++
    bytesToHex (hmacSha256 (utf8Bytes secret)
      (utf8Bytes ("v0:" ++ timestamp ++ ":" ++ body)))⟩

/-! ### The events-endpoint handler (server.ts lines 229-297) -/

/-- JS `StrWhiteSpace` characters skipped by `parseInt`. -/
def isJsSpace (c : Char) : Bool :=
  c = ' ' || c = '\t' || c = '\n' || c = '\r' ||
  c = '\x0b' || c = '\x0c' || c = '\u00a0' || c = '\ufeff'

/-- Value of a decimal digit, if `c` is one. -/
def decDigit? (c : Char) : Option Nat :=
  if '0' ≤ c && c ≤ '9' then some (c.toNat - 48) else none

/-- Value of a hex digit, if `c` is one. -/
def hexDigit? (c : Char) : Option Nat :=
  if '0' ≤ c && c ≤ '9' then some (c.toNat - 48)
  else if 'a' ≤ c && c ≤ 'f' then some (c.toNat - 87)
  else if 'A' ≤ c && c ≤ 'F' then some (c.toNat - 55)
  else none

/-- Longest leading digit run interpreted in base `base`; `none` when
    there is no leading digit (`parseInt` yields `NaN` then). -/
def parseDigits (digit? : Char → Option Nat) (base : Nat) :
    List Char → Option Nat → Option Nat
  | [], acc => acc
  | c :: cs, acc =>
    match digit? c with
    | some d => parseDigits digit? base cs (some ((acc.getD 0) * base + d))
    | none => acc

/-- JS `parseInt(s)` with no radix argument: skip whitespace, optional
    sign, `0x`/`0X` hex prefix else decimal; `none` models `NaN`. -/
def jsParseInt (s : String) : Option Int :=
  let t := s.data.dropWhile isJsSpace
  let (neg, t₁) :=
    match t with
    | '-' :: r => (true, r)
    | '+' :: r => (false, r)
    | r => (false, r)
  let mag : Option Nat :=
    match t₁ with
    | '0' :: 'x' :: r => parseDigits hexDigit? 16 r none
    | '0' :: 'X' :: r => parseDigits hexDigit? 16 r none
    | r => parseDigits decDigit? 10 r none
  mag.map (fun n => if neg then -(n : Int) else (n : Int))

/-- The replay-window guard (lines 242-246):
    `Math.abs(currentTime - parseInt(timestamp)) > 300`.  A `NaN` parse
    makes the comparison false, so the guard does not reject. -/
def replayRejects (now : Int) (timestamp : String) : Bool :=
  match jsParseInt timestamp with
  | some n => 300 < (now - n).natAbs
  | none => false

/-- Outcome of one POST to `/slack/events`: HTTP status, response body,
    and whether the request body was handed to event processing. -/
structure EventsResult where
  status : Nat
  body : String
  processed : Bool
  deriving Repr, DecidableEq

/-- The `POST /slack/events` flow of `handler` (lines 229-297).  `tsH` and
    `sigH` are the two Slack headers (`none` = absent); a present-but-empty
    header is falsy in JS and is rejected by the `!timestamp || !signature`
    check exactly like an absent one (lines 236-239).  `process` abstracts
    lines 272-295 (JSON parse, challenge, event dispatch), which run only
    after all three verification steps pass. -/
def handlerSlackEvents (now : Int) (tsH sigH : Option String)
    (rawBody secret : String) (process : String → EventsResult) : EventsResult :=
  match tsH, sigH with
  | some ts, some sig =>
    if ts = "" || sig = "" then ⟨401, "Unauthorized", false⟩
    else if replayRejects now ts then ⟨401, "Unauthorized", false⟩
    else if sig ≠ computedSignature secret ts rawBody then ⟨401, "Unauthorized", false⟩
    else process rawBody
  | _, _ => ⟨401, "Unauthorized", false⟩

/-! ### The event orchestrator (server.ts lines 50-217) -/

/-- `reaction.replace` of the anchored pattern `^flag-` by the empty
    string (line 62): strip one leading `flag-`. -/
def stripFlag (reaction : String) : String :=
  if "flag-".data.isPrefixOf reaction.data then ⟨reaction.data.drop 5⟩
  else reaction

/-- Language resolution (lines 59-67): a `flag-` reaction
    (`reaction.startsWith("flag-")`, line 60) is looked up by its country
    code, any other reaction is looked up directly. -/
def resolveLang (table : String → Option String) (reaction : String) :
    Option String :=
  if "flag-".data.isPrefixOf reaction.data then table (stripFlag reaction)
  else table reaction

/-- The target message as fetched (lines 75-93): its `text` and
    `thread_ts` fields may each be absent. -/
structure SlackMessage where
  text : Option String
  thread_ts : Option String

/-- One event's collaborator responses, injected as data:
    * `table` — `allReactionToLang` (imported from
      `./functions/detect_lang.ts`, not part of this file's source);
    * `fetchedMessage` — result of the first `conversations.replies` call
      (`none` models an error or empty `messages` list, lines 82-90);
    * `threadReplies` — `replies.messages` texts from the second
      `conversations.replies` call (`none` models an absent field, line 197);
    * `deepl` — the DeepL call as `(target_lang, text) ↦ translation`
      (`none` models a non-200 status or empty translation list,
      lines 160-173). -/
structure OrchestrateEnv where
  table : String → Option String
  fetchedMessage : Option SlackMessage
  threadReplies : Option (List String)
  deepl : String → String → Option String

/-- Observable outcome of one `reaction_added` event: whether the message
    fetch was attempted, the protected text submitted for translation (if
    any), and the text posted to the thread (if any). -/
structure OrchestrateOutcome where
  fetched : Bool
  requestedTranslation : Option String
  posted : Option String
  deriving Repr, DecidableEq

/-- `handleReactionAdded` (lines 50-217): resolve the language (abort
    silently when absent), fetch the message, protect its text (empty
    when absent, line 139), translate, restore, skip the post when any
    existing reply equals the restored text (lines 196-204), else post. -/
def handleReactionAdded (env : OrchestrateEnv) (reaction : String) :
    OrchestrateOutcome :=
  match resolveLang env.table reaction with
  | none => ⟨false, none, none⟩
  | some lang =>
    match env.fetchedMessage with
    | none => ⟨true, none, none⟩
    | some msg =>
      let targetText := (msg.text.map protect).getD ""
      match env.deepl lang.toUpper targetText with
      | none => ⟨true, some targetText, none⟩
      | some raw =>
        let translatedText := restore raw
        match env.threadReplies with
        | some msgs =>
          if translatedText ∈ msgs then ⟨true, some targetText, none⟩
          else ⟨true, some targetText, some translatedText⟩
        | none => ⟨true, some targetText, some translatedText⟩

/-! ### Spec-worded protector rules (for claim C5)

Claim C5 restates the per-payload transformation rules; the following
definition is written from the claim's words (tests are the claim's
regexes `^[#@].*`, `^!subteam.*`, `^!date.*`, `^!.*`, payload containing
`|`), to be compared with `protectPayload` above. -/

/-- The portion of `m` between the leading `!` and an optional trailing
    `|...` (claim C5's extraction for special mentions). -/
def specialExtract (m : List Char) : List Char :=
  (m.drop 1).takeWhile (fun c => c ≠ '|')

/-- Modelled from the claim's words: the six ordered rules of C5. -/
def specMentionRules (m : List Char) : List Char :=
  if headIsHashAt m then
    "<mrkdwn>".data ++ m ++ "</mrkdwn>".data
  else if "!subteam".data.isPrefixOf m then "@[subteam mention removed]".data
  else if "!date".data.isPrefixOf m then
    "<mrkdwn>".data ++ m ++ "</mrkdwn>".data
  else if headIsBang m then
    "<ignore>@".data ++ specialExtract m ++ "</ignore>".data
  else if m.contains '|' then
    "<a href=\"".data ++ m.takeWhile (fun c => c ≠ '|') ++ "\">".data ++
      (m.dropWhile (fun c => c ≠ '|')).drop 1 ++ "</a>".data
  else "<mrkdwn>".data ++ m ++ "</mrkdwn>".data

/-! ### Predicates used in claim statements -/

/-- Claim C1's hypothesis: `s` contains no protected token — the angle
    pattern of line 103 and the emoji pattern of line 137 find no match. -/
def noProtectedTokens (s : String) : Prop :=
  splitFirst pAngle s.data = none ∧ splitFirst pEmoji s.data = none

/-- No occurrence of the literal `lit` inside `y` (as a contiguous
    sublist): no suffix of `y` starts with `lit`. -/
def noOccurB (lit y : List Char) : Bool :=
  y.tails.all (fun y₁ => !(lit.isPrefixOf y₁))

/-- No strict self-overlap: no proper nonempty suffix of `lit` is a
    prefix of `lit`. -/
def noStrictOverlap (lit : List Char) : Bool :=
  lit.tails.all (fun l₂ => l₂.isEmpty || l₂.length == lit.length ||
    (dropPref l₂ lit).isNone)

/-- A position matcher whose matches always consume at least one
    character. -/
def Shrinks (p : List Char → Option (α × List Char)) : Prop :=
  ∀ s a r, p s = some (a, r) → r.length < s.length

/-! ### Generic lemmas about the scanning machinery -/

theorem noNLb_cons (c : Char) (l : List Char) :
    noNLb (c :: l) = (!isNL c && noNLb l) := by
  simp [noNLb]

theorem noNLb_append (a b : List Char) :
    noNLb (a ++ b) = (noNLb a && noNLb b) := by
  simp [noNLb, List.all_append]

theorem dropPref_sound {lit s r : List Char} (h : dropPref lit s = some r) :
    s = lit ++ r := by
  induction lit generalizing s with
  | nil => simpa [dropPref] using h
  | cons p ps ih =>
    cases s with
    | nil => simp [dropPref] at h
    | cons c cs =>
      by_cases hpc : p = c
      · simp only [dropPref, if_pos hpc] at h
        simpa [hpc] using ih h
      · simp [dropPref, hpc] at h

theorem dropPref_append (lit r : List Char) :
    dropPref lit (lit ++ r) = some r := by
  induction lit with
  | nil => simp [dropPref]
  | cons p ps ih => simp [dropPref, ih]

theorem dropPref_none_extend {l lit : List Char} (b : List Char)
    (hlen : l.length ≤ lit.length) (h : dropPref l lit = none) :
    dropPref l (lit ++ b) = none := by
  induction l generalizing lit with
  | nil => simp [dropPref] at h
  | cons p ps ih =>
    cases lit with
    | nil => simp at hlen
    | cons c cs =>
      by_cases hpc : p = c
      · simp only [dropPref, if_pos hpc] at h ⊢
        exact ih (Nat.le_of_succ_le_succ hlen) h
      · simp [dropPref, hpc]

theorem dropPref_cross {lit y t r : List Char}
    (h : dropPref lit (y ++ t) = some r) :
    (∃ y₁, y = lit ++ y₁ ∧ r = y₁ ++ t) ∨
    (∃ l₁ l₂, lit = l₁ ++ l₂ ∧ y = l₁ ∧ l₂ ≠ [] ∧ dropPref l₂ t = some r) := by
  induction lit generalizing y with
  | nil =>
    left
    exact ⟨y, rfl, by simpa [dropPref] using h.symm⟩
  | cons p ps ih =>
    cases y with
    | nil =>
      right
      exact ⟨[], p :: ps, rfl, rfl, by simp, by simpa using h⟩
    | cons c cs =>
      by_cases hpc : p = c
      · simp only [List.cons_append, dropPref, if_pos hpc] at h
        rcases ih h with ⟨y₁, hy, hr⟩ | ⟨l₁, l₂, hl, hy, hne, hd⟩
        · exact Or.inl ⟨y₁, by simp [hy, hpc], hr⟩
        · exact Or.inr ⟨p :: l₁, l₂, by simp [hl], by simp [hy, hpc], hne, hd⟩
      · simp [List.cons_append, dropPref, hpc] at h

theorem scanTo_sound {lit s p r : List Char} (h : scanTo lit s = some (p, r)) :
    s = p ++ lit ++ r ∧ noNLb p = true := by
  induction s generalizing p with
  | nil => simp [scanTo] at h
  | cons c cs ih =>
    rw [scanTo] at h
    cases hd : dropPref lit (c :: cs) with
    | some r₀ =>
      rw [hd] at h
      simp only [Option.some.injEq, Prod.mk.injEq] at h
      obtain ⟨hp, hr⟩ := h
      subst hp hr
      exact ⟨by simpa using dropPref_sound hd, by simp [noNLb]⟩
    | none =>
      rw [hd] at h
      by_cases hnl : isNL c
      · simp [hnl] at h
      · simp only [hnl, Bool.false_eq_true, if_false] at h
        cases hs : scanTo lit cs with
        | none => simp [hs] at h
        | some pr =>
          obtain ⟨p₁, r₁⟩ := pr
          rw [hs] at h
          simp only [Option.some.injEq, Prod.mk.injEq] at h
          obtain ⟨hp, hr⟩ := h
          subst hp hr
          obtain ⟨hcs, hnlp⟩ := ih hs
          exact ⟨by simp [hcs], by rw [noNLb_cons]; simp [hnl, hnlp]⟩

theorem spanEmoji_sound (s : List Char) :
    s = (spanEmoji s).1 ++ (spanEmoji s).2 ∧
    (spanEmoji s).1.all isEmojiChar = true := by
  induction s with
  | nil => simp [spanEmoji]
  | cons c cs ih =>
    by_cases hc : isEmojiChar c
    · simpa [spanEmoji, hc] using ih
    · simp [spanEmoji, hc]

theorem splitFirst_sound {α : Type} {p : List Char → Option (α × List Char)}
    {s pre r : List Char} {a : α}
    (h : splitFirst p s = some (pre, a, r)) :
    ∃ suf, s = pre ++ suf ∧ p suf = some (a, r) := by
  induction s generalizing pre with
  | nil =>
    rw [splitFirst] at h
    cases hp : p [] with
    | some ar =>
      obtain ⟨a₁, r₁⟩ := ar
      rw [hp] at h
      simp only [Option.some.injEq, Prod.mk.injEq] at h
      obtain ⟨h1, h2, h3⟩ := h
      subst h1 h2 h3
      exact ⟨[], by simp, hp⟩
    | none => simp [hp] at h
  | cons c cs ih =>
    rw [splitFirst] at h
    cases hp : p (c :: cs) with
    | some ar =>
      obtain ⟨a₁, r₁⟩ := ar
      rw [hp] at h
      simp only [Option.some.injEq, Prod.mk.injEq] at h
      obtain ⟨h1, h2, h3⟩ := h
      subst h1 h2 h3
      exact ⟨c :: cs, by simp, hp⟩
    | none =>
      rw [hp] at h
      cases hs : splitFirst p cs with
      | some par =>
        obtain ⟨pre₁, a₁, r₁⟩ := par
        rw [hs] at h
        simp only [Option.some.injEq, Prod.mk.injEq] at h
        obtain ⟨h1, h2, h3⟩ := h
        subst h1 h2 h3
        obtain ⟨suf, hsuf, hpsuf⟩ := ih hs
        exact ⟨suf, by simp [hsuf], hpsuf⟩
      | none => simp [hs] at h

theorem splitFirst_isSome {α : Type} {p : List Char → Option (α × List Char)}
    {suf : List Char} (pre : List Char) {x : α × List Char}
    (h : p suf = some x) :
    (splitFirst p (pre ++ suf)).isSome := by
  induction pre with
  | nil =>
    cases suf with
    | nil => simp [splitFirst, h]
    | cons c cs => simp [splitFirst, h]
  | cons c cs ih =>
    rw [List.cons_append, splitFirst]
    cases hp : p (c :: (cs ++ suf)) with
    | some ar => simp
    | none =>
      cases hs : splitFirst p (cs ++ suf) with
      | some par => simp
      | none => rw [hs] at ih; simp at ih

theorem splitFirst_eq_none_of {α : Type} {p : List Char → Option (α × List Char)}
    {s : List Char} (h : ∀ suf, suf <:+ s → p suf = none) :
    splitFirst p s = none := by
  induction s with
  | nil => simp [splitFirst, h [] (by simp)]
  | cons c cs ih =>
    rw [splitFirst, h (c :: cs) (by simp),
      ih (fun suf hsuf => h suf (hsuf.trans (List.suffix_cons c cs)))]

theorem shrinks_pAngle : Shrinks pAngle := by
  intro s a r h
  cases s with
  | nil => simp [pAngle] at h
  | cons c cs =>
    by_cases hc : c = '<'
    · subst hc
      rw [pAngle] at h
      obtain ⟨hcs, -⟩ := scanTo_sound h
      simp [hcs]
      omega
    · rw [pAngle.eq_def] at h
      split at h
      · simp_all
      · exact absurd h (by simp)

theorem shrinks_pEmoji : Shrinks pEmoji := by
  intro s a r h
  cases s with
  | nil => simp [pEmoji] at h
  | cons c cs =>
    by_cases hc : c = ':'
    · subst hc
      rw [pEmoji] at h
      obtain ⟨hsp, -⟩ := spanEmoji_sound cs
      rcases hrun : spanEmoji cs with ⟨run, rest⟩
      rw [hrun] at h hsp
      by_cases hre : run.isEmpty
      · simp [hre] at h
      · simp only [hre, Bool.false_eq_true, if_false] at h
        cases rest with
        | nil => simp at h
        | cons c₂ r₂ =>
          by_cases hc2 : c₂ = ':'
          · subst hc2
            simp only [Option.some.injEq, Prod.mk.injEq] at h
            obtain ⟨-, hr⟩ := h
            subst hr
            simp [hsp]
            omega
          · split at h
            · simp_all
            · exact absurd h (by simp)
    · rw [pEmoji.eq_def] at h
      split at h
      · simp_all
      · exact absurd h (by simp)

theorem pREmoji_sound {s run r : List Char} (h : pREmoji s = some (run, r)) :
    s = "<emoji>".data ++ run ++ "</emoji>".data ++ r ∧ run ≠ [] := by
  rw [pREmoji] at h
  cases hd : dropPref "<emoji>".data s with
  | none => simp [hd] at h
  | some s₁ =>
    rw [hd] at h
    dsimp only at h
    obtain ⟨hsp, -⟩ := spanEmoji_sound s₁
    rcases hrun : spanEmoji s₁ with ⟨run₀, rest⟩
    rw [hrun] at h hsp
    dsimp only at h
    by_cases hre : run₀.isEmpty
    · simp [hre] at h
    · simp only [hre, Bool.false_eq_true, if_false] at h
      cases hd₂ : dropPref "</emoji>".data rest with
      | none => simp [hd₂] at h
      | some r₂ =>
        rw [hd₂] at h
        simp only [Option.some.injEq, Prod.mk.injEq] at h
        obtain ⟨h1, h2⟩ := h
        subst h1 h2
        refine ⟨?_, by simpa [List.isEmpty_iff] using hre⟩
        rw [dropPref_sound hd, hsp, dropPref_sound hd₂]
        simp

theorem pMrkdwn_sound {s g r : List Char} (h : pMrkdwn s = some (g, r)) :
    s = "<mrkdwn>".data ++ g ++ "</mrkdwn>".data ++ r ∧ noNLb g = true := by
  rw [pMrkdwn] at h
  cases hd : dropPref "<mrkdwn>".data s with
  | none => simp [hd] at h
  | some s₁ =>
    rw [hd] at h
    obtain ⟨hs₁, hnl⟩ := scanTo_sound h
    exact ⟨by rw [dropPref_sound hd, hs₁]; simp, hnl⟩

theorem pIgnore_sound {s g r : List Char} (h : pIgnore s = some (g, r)) :
    s = "<ignore>".data ++ g ++ "</ignore>".data ++ r ∧ noNLb g = true := by
  rw [pIgnore] at h
  cases hd : dropPref "<ignore>".data s with
  | none => simp [hd] at h
  | some s₁ =>
    rw [hd] at h
    obtain ⟨hs₁, hnl⟩ := scanTo_sound h
    exact ⟨by rw [dropPref_sound hd, hs₁]; simp, hnl⟩

theorem scanHref_sound {s h t r : List Char}
    (hs : scanHref s = some ((h, t), r)) :
    s = h ++ "\">".data ++ t ++ "</a>".data ++ r ∧
    noNLb h = true ∧ noNLb t = true := by
  induction s generalizing h with
  | nil => simp [scanHref] at hs
  | cons c cs ih =>
    rw [scanHref] at hs
    cases hd : dropPref "\">".data (c :: cs) with
    | some s₂ =>
      rw [hd] at hs
      dsimp only at hs
      cases hst : scanTo "</a>".data s₂ with
      | none =>
        rw [hst] at hs
        dsimp only at hs
        by_cases hnl : isNL c
        · simp [hnl] at hs
        · simp only [hnl, Bool.false_eq_true, if_false] at hs
          cases hsh : scanHref cs with
          | none => simp [hsh] at hs
          | some htr =>
            obtain ⟨⟨h₁, t₁⟩, r₁⟩ := htr
            rw [hsh] at hs
            simp only [Option.some.injEq, Prod.mk.injEq] at hs
            obtain ⟨⟨hh, ht⟩, hr⟩ := hs
            subst hh ht hr
            obtain ⟨hcs, hnlh, hnlt⟩ := ih hsh
            exact ⟨by simp [hcs], by rw [noNLb_cons]; simp [hnl, hnlh], hnlt⟩
      | some tr =>
        obtain ⟨t₁, r₁⟩ := tr
        rw [hst] at hs
        dsimp only at hs
        simp only [Option.some.injEq, Prod.mk.injEq] at hs
        obtain ⟨⟨hh, ht⟩, hr⟩ := hs
        subst hh ht hr
        obtain ⟨hs₂, hnlt⟩ := scanTo_sound hst
        refine ⟨?_, by simp [noNLb], hnlt⟩
        rw [dropPref_sound hd, hs₂]
        simp
    | none =>
      rw [hd] at hs
      by_cases hnl : isNL c
      · simp [hnl] at hs
      · simp only [hnl, Bool.false_eq_true, if_false] at hs
        cases hsh : scanHref cs with
        | none => simp [hsh] at hs
        | some htr =>
          obtain ⟨⟨h₁, t₁⟩, r₁⟩ := htr
          rw [hsh] at hs
          simp only [Option.some.injEq, Prod.mk.injEq] at hs
          obtain ⟨⟨hh, ht⟩, hr⟩ := hs
          subst hh ht hr
          obtain ⟨hcs, hnlh, hnlt⟩ := ih hsh
          exact ⟨by simp [hcs], by rw [noNLb_cons]; simp [hnl, hnlh], hnlt⟩

theorem pAnchorCore_sound {s h t r : List Char}
    (hs : pAnchorCore s = some ((h, t), r)) :
    s = "<a href=\"".data ++ h ++ "\">".data ++ t ++ "</a>".data ++ r ∧
    noNLb h = true ∧ noNLb t = true := by
  rw [pAnchorCore] at hs
  cases hd : dropPref "<a href=\"".data s with
  | none => simp [hd] at hs
  | some s₁ =>
    rw [hd] at hs
    obtain ⟨hs₁, hnlh, hnlt⟩ := scanHref_sound hs
    exact ⟨by rw [dropPref_sound hd, hs₁]; simp, hnlh, hnlt⟩

theorem pAnchor_sound {s m r : List Char} (hs : pAnchor s = some (m, r)) :
    ∃ h t, m = anchorText h t ∧
      s = "<a href=\"".data ++ h ++ "\">".data ++ t ++ "</a>".data ++ r ∧
      noNLb h = true ∧ noNLb t = true := by
  rw [pAnchor] at hs
  cases hc : pAnchorCore s with
  | none => simp [hc] at hs
  | some htr =>
    obtain ⟨⟨h, t⟩, r₁⟩ := htr
    rw [hc] at hs
    simp only [Option.some.injEq, Prod.mk.injEq] at hs
    obtain ⟨hm, hr⟩ := hs
    subst hm hr
    obtain ⟨hdec, hnlh, hnlt⟩ := pAnchorCore_sound hc
    exact ⟨h, t, rfl, hdec, hnlh, hnlt⟩

theorem shrinks_pREmoji : Shrinks pREmoji := by
  intro s a r h
  obtain ⟨hdec, -⟩ := pREmoji_sound h
  simp [hdec]
  omega

theorem shrinks_pMrkdwn : Shrinks pMrkdwn := by
  intro s a r h
  obtain ⟨hdec, -⟩ := pMrkdwn_sound h
  simp [hdec]
  omega

theorem shrinks_pIgnore : Shrinks pIgnore := by
  intro s a r h
  obtain ⟨hdec, -⟩ := pIgnore_sound h
  simp [hdec]
  omega

theorem shrinks_pAnchor : Shrinks pAnchor := by
  intro s a r h
  obtain ⟨h₁, t₁, -, hdec, -⟩ := pAnchor_sound h
  simp [hdec]
  omega

theorem replaceAll_nomatch {α : Type} {p : List Char → Option (α × List Char)}
    {f : α → List Char} {s : List Char} (h : splitFirst p s = none) :
    replaceAll p f s = s := by
  rw [replaceAll]
  cases hn : s.length with
  | zero => rw [replaceAllFuel]
  | succ n => rw [replaceAllFuel, h]

theorem shrinks_no_empty_match {α : Type}
    {p : List Char → Option (α × List Char)} (hp : Shrinks p) :
    p [] = none := by
  cases h : p [] with
  | none => rfl
  | some ar => exact absurd (hp [] ar.1 ar.2 (by simpa using h)) (by simp)

theorem replaceAllFuel_congr {α : Type}
    {p : List Char → Option (α × List Char)} {f : α → List Char}
    (hp : Shrinks p) :
    ∀ n n' s, s.length ≤ n → s.length ≤ n' →
      replaceAllFuel p f n s = replaceAllFuel p f n' s := by
  intro n
  induction n with
  | zero =>
    intro n' s hn hn'
    have : s = [] := by
      cases s with
      | nil => rfl
      | cons c cs => simp at hn
    subst this
    cases n' with
    | zero => rfl
    | succ m =>
      rw [replaceAllFuel, replaceAllFuel, splitFirst, shrinks_no_empty_match hp]
  | succ n ih =>
    intro n' s hn hn'
    cases n' with
    | zero =>
      have : s = [] := by
        cases s with
        | nil => rfl
        | cons c cs => simp at hn'
      subst this
      rw [replaceAllFuel, replaceAllFuel, splitFirst, shrinks_no_empty_match hp]
    | succ m =>
      rw [replaceAllFuel, replaceAllFuel]
      cases hsp : splitFirst p s with
      | none => rfl
      | some par =>
        obtain ⟨pre, a, r⟩ := par
        obtain ⟨suf, hsuf, hpsuf⟩ := splitFirst_sound hsp
        have hlt : r.length < suf.length := hp suf a r hpsuf
        have hsl : suf.length ≤ s.length := by simp [hsuf]
        have h₁ : r.length ≤ n := by omega
        have h₂ : r.length ≤ m := by omega
        dsimp only
        rw [ih m r h₁ h₂]

theorem replaceAll_match {α : Type} {p : List Char → Option (α × List Char)}
    {f : α → List Char} {s pre r : List Char} {a : α} (hp : Shrinks p)
    (h : splitFirst p s = some (pre, a, r)) :
    replaceAll p f s = pre ++ f a ++ replaceAll p f r := by
  obtain ⟨suf, hsuf, hpsuf⟩ := splitFirst_sound h
  have hlt : r.length < suf.length := hp suf a r hpsuf
  have hsl : suf.length ≤ s.length := by simp [hsuf]
  rw [replaceAll, replaceAll]
  cases hn : s.length with
  | zero =>
    exfalso
    omega
  | succ n =>
    rw [replaceAllFuel, h]
    dsimp only
    have : r.length ≤ n := by omega
    rw [replaceAllFuel_congr hp n r.length r this (Nat.le_refl _)]

/-! ### Claim C1: round trip on token-free text -/

theorem scanTo_gt_isSome {w : List Char} (v : List Char) (hw : noNLb w = true) :
    (scanTo ['>'] (w ++ '>' :: v)).isSome := by
  induction w with
  | nil => simp [scanTo, dropPref]
  | cons c cs ih =>
    rw [noNLb_cons, Bool.and_eq_true] at hw
    obtain ⟨hc, hcs⟩ := hw
    rw [List.cons_append, scanTo]
    cases hd : dropPref ['>'] (c :: (cs ++ '>' :: v)) with
    | some r => simp
    | none =>
      have hnl : isNL c = false := by simpa using hc
      simp only [hnl, Bool.false_eq_true, if_false]
      cases hs : scanTo ['>'] (cs ++ '>' :: v) with
      | some pr => simp
      | none => exact absurd (ih hcs) (by simp [hs])

theorem angle_decomp_isSome (u w v : List Char) (hw : noNLb w = true) :
    (splitFirst pAngle (u ++ '<' :: (w ++ '>' :: v))).isSome := by
  have h := scanTo_gt_isSome v hw
  cases hsc : scanTo ['>'] (w ++ '>' :: v) with
  | none => rw [hsc] at h; simp at h
  | some pr =>
    exact splitFirst_isSome u (show pAngle ('<' :: (w ++ '>' :: v)) = some pr by
      rw [pAngle, hsc])

theorem splitFirst_pREmoji_none {s : List Char}
    (h : splitFirst pAngle s = none) : splitFirst pREmoji s = none := by
  cases hx : splitFirst pREmoji s with
  | none => rfl
  | some par =>
    exfalso
    obtain ⟨pre, a, r⟩ := par
    obtain ⟨suf, hsuf, hp⟩ := splitFirst_sound hx
    obtain ⟨hdec, -⟩ := pREmoji_sound hp
    have hlit : "<emoji>".data = '<' :: ("emoji".data ++ ['>']) := rfl
    have hs : s = pre ++ '<' :: ("emoji".data ++ '>' ::
        (a ++ "</emoji>".data ++ r)) := by
      rw [hsuf, hdec, hlit]
      simp
    rw [hs] at h
    simp only [List.cons_append, List.append_assoc, List.nil_append] at h
    exact absurd
      (angle_decomp_isSome pre "emoji".data (a ++ "</emoji>".data ++ r)
        (by decide)) (by simp [h])

theorem splitFirst_pMrkdwn_none {s : List Char}
    (h : splitFirst pAngle s = none) : splitFirst pMrkdwn s = none := by
  cases hx : splitFirst pMrkdwn s with
  | none => rfl
  | some par =>
    exfalso
    obtain ⟨pre, a, r⟩ := par
    obtain ⟨suf, hsuf, hp⟩ := splitFirst_sound hx
    obtain ⟨hdec, -⟩ := pMrkdwn_sound hp
    have hlit : "<mrkdwn>".data = '<' :: ("mrkdwn".data ++ ['>']) := rfl
    have hs : s = pre ++ '<' :: ("mrkdwn".data ++ '>' ::
        (a ++ "</mrkdwn>".data ++ r)) := by
      rw [hsuf, hdec, hlit]
      simp
    rw [hs] at h
    simp only [List.cons_append, List.append_assoc, List.nil_append] at h
    exact absurd
      (angle_decomp_isSome pre "mrkdwn".data (a ++ "</mrkdwn>".data ++ r)
        (by decide)) (by simp [h])

theorem splitFirst_pIgnore_none {s : List Char}
    (h : splitFirst pAngle s = none) : splitFirst pIgnore s = none := by
  cases hx : splitFirst pIgnore s with
  | none => rfl
  | some par =>
    exfalso
    obtain ⟨pre, a, r⟩ := par
    obtain ⟨suf, hsuf, hp⟩ := splitFirst_sound hx
    obtain ⟨hdec, -⟩ := pIgnore_sound hp
    have hlit : "<ignore>".data = '<' :: ("ignore".data ++ ['>']) := rfl
    have hs : s = pre ++ '<' :: ("ignore".data ++ '>' ::
        (a ++ "</ignore>".data ++ r)) := by
      rw [hsuf, hdec, hlit]
      simp
    rw [hs] at h
    simp only [List.cons_append, List.append_assoc, List.nil_append] at h
    exact absurd
      (angle_decomp_isSome pre "ignore".data (a ++ "</ignore>".data ++ r)
        (by decide)) (by simp [h])

theorem splitFirst_pAnchor_none {s : List Char}
    (h : splitFirst pAngle s = none) : splitFirst pAnchor s = none := by
  cases hx : splitFirst pAnchor s with
  | none => rfl
  | some par =>
    exfalso
    obtain ⟨pre, m, r⟩ := par
    obtain ⟨suf, hsuf, hp⟩ := splitFirst_sound hx
    obtain ⟨h₁, t₁, -, hdec, hnlh, -⟩ := pAnchor_sound hp
    have hlit : "<a href=\"".data = '<' :: ("a href=".data ++ ['"']) := rfl
    have hq : "\">".data = '"' :: '>' :: ([] : List Char) := rfl
    have hs : s = pre ++ '<' :: (("a href=".data ++ ['"'] ++ h₁ ++ ['"']) ++
        '>' :: (t₁ ++ "</a>".data ++ r)) := by
      rw [hsuf, hdec, hlit, hq]
      simp
    rw [hs] at h
    simp only [List.cons_append, List.append_assoc, List.nil_append] at h
    have hw : noNLb ("a href=".data ++ ['"'] ++ h₁ ++ ['"']) = true := by
      simp only [noNLb_append, Bool.and_eq_true]
      exact ⟨⟨⟨by decide, by decide⟩, hnlh⟩, by decide⟩
    exact absurd
      (angle_decomp_isSome pre ("a href=".data ++ ['"'] ++ h₁ ++ ['"'])
        (t₁ ++ "</a>".data ++ r) hw) (by simp [h])

/-- "For every string s that contains no protected tokens (no bracketed
    token and no shortcode emoji token), applying the Markup Protector and
    then the Markup Restorer returns s unchanged:
    restore(protect(s)) == s."  (Claim C1) -/
theorem c1_roundtrip_identity_on_plain_text (s : String)
    (h : noProtectedTokens s) : restore (protect s) = s := by
  obtain ⟨l⟩ := s
  obtain ⟨ha, he⟩ := h
  have h1 : angleProtectPass l = l := replaceAll_nomatch ha
  have h2 : emojiProtectPass l = l := replaceAll_nomatch he
  have hre : emojiRestorePass l = l :=
    replaceAll_nomatch (splitFirst_pREmoji_none ha)
  have hrm : mrkdwnRestorePass l = l :=
    replaceAll_nomatch (splitFirst_pMrkdwn_none ha)
  have hra : anchorRestorePass l = l :=
    replaceAll_nomatch (splitFirst_pAnchor_none ha)
  have hri : ignoreRestorePass l = l :=
    replaceAll_nomatch (splitFirst_pIgnore_none ha)
  show (⟨restoreL (protectL l)⟩ : String) = ⟨l⟩
  rw [protectL, h1, h2, restoreL, hre, hrm, hra, hri]

/-- Witness for C1 at the concrete token-free string "Hello world.". -/
theorem c1_witness :
    noProtectedTokens "Hello world." ∧
    restore (protect "Hello world.") = "Hello world." :=
  ⟨⟨by decide, by decide⟩,
   c1_roundtrip_identity_on_plain_text "Hello world." ⟨by decide, by decide⟩⟩

/-! ### Claim C4: concrete round trip -/

/-- "For the specific input string
    Hello <@U123> see :smile: and <https://x.com|link>, applying the
    Markup Protector and then the Markup Restorer (with no intervening
    mutation) yields exactly the original string."  (Claim C4) -/
theorem c4_concrete_roundtrip :
    restore (protect "Hello <@U123> see :smile: and <https://x.com|link>") =
      "Hello <@U123> see :smile: and <https://x.com|link>" := by
  decide

/-! ### Claim C5: the protector's per-payload rules -/

/-- "For every payload token, the Markup Protector applies its rules in
    the stated order: a payload matching [#@].* is wrapped unchanged in an
    mrkdwn-tagged span; one matching !subteam.* is replaced wholesale by
    @[subteam mention removed]; one matching !date.* is wrapped unchanged
    in an mrkdwn span; any other !.* becomes an ignore-tagged span holding
    @ plus the portion between ! and an optional trailing pipe (falling
    back to @[special mention] when extraction fails); a payload with a
    pipe becomes an anchor span; any other payload is wrapped in an mrkdwn
    span."  Payloads of angle tokens never contain a line terminator, and
    on such payloads the code's callback coincides with the claim's
    ordered rules.  (Claim C5) -/
theorem c5_protector_rules (m : List Char) (h : noNLb m = true) :
    protectPayload m = specMentionRules m := by
  by_cases h1 : headIsHashAt m = true
  · have ht : reTestMention m = true := by simp [reTestMention, h1, h]
    simp [protectPayload, specMentionRules, ht, h1, reExecMention]
  · have ht : reTestMention m = false := by simp [reTestMention, h1]
    by_cases h2 : "!subteam".data.isPrefixOf m = true
    · have ht2 : reTestSubteam m = true := by simp [reTestSubteam, h2, h]
      simp [protectPayload, specMentionRules, ht, h1, ht2, h2]
    · have ht2 : reTestSubteam m = false := by simp [reTestSubteam, h2]
      by_cases h3 : "!date".data.isPrefixOf m = true
      · have ht3 : reTestDate m = true := by simp [reTestDate, h3, h]
        simp [protectPayload, specMentionRules, ht, h1, ht2, h2, ht3, h3,
          reExecDate]
      · have ht3 : reTestDate m = false := by simp [reTestDate, h3]
        by_cases h4 : headIsBang m = true
        · have ht4 : reTestSpecial m = true := by simp [reTestSpecial, h4, h]
          simp [protectPayload, specMentionRules, ht, h1, ht2, h2, ht3, h3,
            ht4, h4, reExecSpecial, specialExtract]
        · have ht4 : reTestSpecial m = false := by simp [reTestSpecial, h4]
          by_cases h5 : m.contains '|' = true
          · have h5m : '|' ∈ m := by simpa using h5
            have ht5 : reTestLink m = true := by simp [reTestLink, h5m, h]
            simp [protectPayload, specMentionRules, ht, h1, ht2, h2, ht3, h3,
              ht4, h4, ht5, h5m, reExecLink]
          · have h5m : ¬('|' ∈ m) := by simpa using h5
            have ht5 : reTestLink m = false := by simp [reTestLink, h5m]
            simp [protectPayload, specMentionRules, ht, h1, ht2, h2, ht3, h3,
              ht4, h4, ht5, h5m]

/-- Witness for C5 on the special-mention payload "!here|x". -/
theorem c5_witness :
    noNLb "!here|x".data = true ∧
    protectPayload "!here|x".data = specMentionRules "!here|x".data :=
  ⟨by decide, c5_protector_rules "!here|x".data (by decide)⟩

/-! ### Claim C7: the duplicate-post guard -/

/-- "For every processed reaction event, if any reply in the fetched
    thread-reply list has text exactly equal to the newly restored
    translated text, the Orchestrator posts no message for that event."
    (Claim C7) -/
theorem c7_duplicate_not_posted (env : OrchestrateEnv) (reaction lang raw : String)
    (msg : SlackMessage) (msgs : List String)
    (hlang : resolveLang env.table reaction = some lang)
    (hmsg : env.fetchedMessage = some msg)
    (htr : env.deepl lang.toUpper ((msg.text.map protect).getD "") = some raw)
    (hreps : env.threadReplies = some msgs)
    (hdup : restore raw ∈ msgs) :
    (handleReactionAdded env reaction).posted = none := by
  rw [handleReactionAdded, hlang, hmsg]
  dsimp only
  rw [htr]
  dsimp only
  rw [hreps]
  dsimp only
  rw [if_pos hdup]

/-- Witness for C7: the thread already holds "Bonjour" and the new
    translation is "Bonjour" again — nothing is posted. -/
theorem c7_witness :
    (handleReactionAdded
      ⟨(fun s => if s = "fr" then some "fr" else none),
       some ⟨some "Bonjour", none⟩, some ["Bonjour"],
       (fun _ _ => some "Bonjour")⟩ "fr").posted = none :=
  c7_duplicate_not_posted _ "fr" "fr" "Bonjour" ⟨some "Bonjour", none⟩
    ["Bonjour"] (by decide) rfl rfl rfl (by decide)

/-! ### Claim C8: two-tier language resolution -/

/-- "For every reaction name, language resolution follows the two-tier
    rule: a flag-prefixed name is stripped and looked up as a country
    code, any other name is looked up directly; reaction flag-jp resolves
    to the same language code as direct reaction jp, and a reaction with
    no table entry in the applicable branch results in no action (no
    fetch, no translation, no post)."  (Claim C8) -/
theorem c8_language_resolution (env : OrchestrateEnv) (reaction : String) :
    resolveLang env.table "flag-jp" = env.table "jp" ∧
    resolveLang env.table "jp" = env.table "jp" ∧
    (resolveLang env.table reaction = none →
      handleReactionAdded env reaction = ⟨false, none, none⟩) := by
  refine ⟨?_, ?_, ?_⟩
  · rw [resolveLang, if_pos (by decide),
      show stripFlag "flag-jp" = "jp" from by
        rw [stripFlag, if_pos (by decide)]
        decide]
  · rw [resolveLang, if_neg (by decide)]
  · intro h
    rw [handleReactionAdded, h]

/-- Witness for C8: a table defined only at "jp", and the unknown
    reaction "xx" producing no action. -/
theorem c8_witness :
    handleReactionAdded
      ⟨(fun s => if s = "jp" then some "ja" else none), none, none,
       (fun _ _ => none)⟩ "xx" = ⟨false, none, none⟩ :=
  (c8_language_resolution _ "xx").2.2 (by decide)

/-! ### Claims C2, C3, C9: the events-endpoint guards -/

theorem computedSignature_ne_empty (secret ts body : String) :
    computedSignature secret ts body ≠ "" := by
  rw [computedSignature]
  intro h
  have := congrArg String.data h
  simp at this

/-- Shared characterization: once both headers are present, the timestamp
    is truthy and the replay guard passes, the handler runs `process`
    exactly when the signature header equals `computedSignature`, and
    responds 401 otherwise. -/
theorem handler_auth_characterization (now : Int) (secret ts body sig : String)
    (process : String → EventsResult)
    (hts : ts ≠ "") (hfresh : replayRejects now ts = false) :
    handlerSlackEvents now (some ts) (some sig) body secret process =
      if sig = computedSignature secret ts body then process body
      else ⟨401, "Unauthorized", false⟩ := by
  by_cases hsig : sig = ""
  · subst hsig
    rw [handlerSlackEvents, if_pos (by simp),
      if_neg (fun h => computedSignature_ne_empty secret ts body h.symm)]
  · rw [handlerSlackEvents, if_neg (by simp [hts, hsig]), if_neg (by simp [hfresh])]
    by_cases hc : sig = computedSignature secret ts body
    · rw [if_neg (by simp [hc]), if_pos hc]
    · rw [if_pos (by simp [hc]), if_neg hc]

/-- "For every (sharedSecret, timestampHeader, rawBody) triple, the
    signature verifier accepts exactly the header string equal to v0=
    followed by the lowercase two-hex-digits-per-byte encoding of
    HMAC-SHA256(sharedSecret, v0:timestampHeader:rawBody), and rejects
    (401) any other signature header, including any single-bit mutation
    of the correct one."  (Claim C2) -/
theorem c2_signature_exactness (now : Int) (secret ts body sig : String)
    (process : String → EventsResult)
    (hts : ts ≠ "") (hfresh : replayRejects now ts = false) :
    handlerSlackEvents now (some ts) (some sig) body secret process =
      if sig = computedSignature secret ts body then process body
      else ⟨401, "Unauthorized", false⟩ :=
  handler_auth_characterization now secret ts body sig process hts hfresh

/-- "For every inbound POST to the events endpoint, if the timestamp
    header or the signature header is absent, or if
    |currentUnixTime - timestampHeader| > 300 seconds, the request is
    rejected with status 401 Unauthorized and no event processing
    occurs."  (Claim C3) -/
theorem c3_missing_or_stale_rejected (now : Int) (tsH sigH : Option String)
    (body secret : String) (process : String → EventsResult) :
    ((tsH = none ∨ sigH = none) →
      handlerSlackEvents now tsH sigH body secret process =
        ⟨401, "Unauthorized", false⟩) ∧
    (∀ ts n, tsH = some ts → jsParseInt ts = some n →
      300 < (now - n).natAbs →
      handlerSlackEvents now tsH sigH body secret process =
        ⟨401, "Unauthorized", false⟩) := by
  constructor
  · rintro (h | h) <;> subst h
    · cases sigH <;> rfl
    · cases tsH <;> rfl
  · intro ts n hts hparse habs
    subst hts
    cases sigH with
    | none => rfl
    | some sig =>
      rw [handlerSlackEvents]
      by_cases h0 : ts = "" || sig = ""
      · rw [if_pos (by simpa using h0)]
      · have hrr : replayRejects now ts = true := by
          rw [replayRejects, hparse]
          simpa using habs
        rw [if_neg (by simpa using h0), if_pos (by simp [hrr])]

/-- Witness for C3: an absent timestamp header, and a 600-second-stale
    timestamp, each rejected with 401 and no processing. -/
theorem c3_witness :
    handlerSlackEvents 0 none (some "x") "b" "s"
      (fun bd => ⟨200, bd, true⟩) = ⟨401, "Unauthorized", false⟩ ∧
    handlerSlackEvents 1000 (some "400") (some "x") "b" "s"
      (fun bd => ⟨200, bd, true⟩) = ⟨401, "Unauthorized", false⟩ :=
  ⟨(c3_missing_or_stale_rejected 0 none (some "x") "b" "s" _).1 (Or.inl rfl),
   (c3_missing_or_stale_rejected 1000 (some "400") (some "x") "b" "s" _).2
     "400" 400 rfl (by decide) (by decide)⟩

/-- "For every timestamp header string whose numeric parse yields NaN,
    the replay-window check does not reject the request: the NaN
    comparison |now - NaN| > 300 evaluates to false, so such a request
    proceeds past the timestamp guard and is rejected only if the
    signature comparison fails."  (Claim C9) -/
theorem c9_nan_timestamp_passes_guard (now : Int) (ts sig body secret : String)
    (process : String → EventsResult)
    (hts : ts ≠ "") (hnan : jsParseInt ts = none) :
    replayRejects now ts = false ∧
    handlerSlackEvents now (some ts) (some sig) body secret process =
      if sig = computedSignature secret ts body then process body
      else ⟨401, "Unauthorized", false⟩ := by
  have hrr : replayRejects now ts = false := by rw [replayRejects, hnan]
  exact ⟨hrr,
    handler_auth_characterization now secret ts body sig process hts hrr⟩

/-! ### Counterexamples for claims C6 and C10 -/

/-- Counterexample to C6 as stated: on
    `<mrkdwn>a href="u"</mrkdwn>x</a>` the code's restorer (mrkdwn
    unwrapping before the anchor pass) yields `<u|x>`, while a restorer
    that runs the anchor pass before any inner unwrapping yields
    `<a href="u">x</a>`. -/
theorem c6_counterexample :
    restore "<mrkdwn>a href=\"u\"</mrkdwn>x</a>" ≠
      restoreAnchorFirst "<mrkdwn>a href=\"u\"</mrkdwn>x</a>" := by
  decide

/-- Counterexample to C10 as stated: the payload `!a:b:c` (no pipe, not
    subteam/date) is NOT mapped by protect to `<ignore>@a:b:c</ignore>`,
    because the emoji pass then rewrites the `:b:` inside the ignore
    span. -/
theorem c10_counterexample :
    protect "<!a:b:c>" ≠ "<ignore>@a:b:c</ignore>" := by
  decide

/-! ### Occurrence and boundary lemmas (for claims C6 and C10) -/

theorem isPrefixOf_append_self (lit y : List Char) :
    lit.isPrefixOf (lit ++ y) = true := by
  simp

theorem noOccurB_no_lit_start {lit y y₁ : List Char} (h : noOccurB lit y = true)
    (hsuf : y₁ <:+ y) : lit.isPrefixOf y₁ = false := by
  rw [noOccurB, List.all_eq_true] at h
  simpa using h y₁ ((List.mem_tails _ _).mpr hsuf)

theorem noOccurB_suffix {lit y y' : List Char} (h : noOccurB lit y = true)
    (hsuf : y' <:+ y) : noOccurB lit y' = true := by
  rw [noOccurB, List.all_eq_true] at h ⊢
  intro y₁ hy₁
  exact h y₁ ((List.mem_tails _ _).mpr (((List.mem_tails _ _).mp hy₁).trans hsuf))

theorem noOccurB_of_mem_notin {lit y : List Char} {c : Char}
    (hc : c ∈ lit) (hy : c ∉ y) : noOccurB lit y = true := by
  rw [noOccurB, List.all_eq_true]
  intro y₁ hy₁
  cases hp : lit.isPrefixOf y₁ with
  | false => rfl
  | true =>
    exfalso
    have hpre : lit <+: y₁ := List.isPrefixOf_iff_prefix.mp hp
    exact hy (((List.mem_tails _ _).mp hy₁).subset (hpre.subset hc))

theorem cross_of_noStrictOverlap {lit : List Char}
    (h : noStrictOverlap lit = true) (b : List Char) :
    ∀ l₁ l₂, lit = l₁ ++ l₂ → l₁ ≠ [] → l₂ ≠ [] →
      dropPref l₂ (lit ++ b) = none := by
  intro l₁ l₂ heq h1 h2
  rw [noStrictOverlap, List.all_eq_true] at h
  have hmem : l₂ ∈ lit.tails := (List.mem_tails _ _).mpr ⟨l₁, heq.symm⟩
  have hlen : l₂.length < lit.length := by
    have := congrArg List.length heq
    simp at this
    cases l₁ with
    | nil => exact absurd rfl h1
    | cons c cs => simp at this; omega
  have hl2 := h l₂ hmem
  rw [Bool.or_eq_true, Bool.or_eq_true] at hl2
  rcases hl2 with hl2 | hl2
  · rcases hl2 with hl2 | hl2
    · exact absurd (by simpa [List.isEmpty_iff] using hl2) h2
    · have : l₂.length = lit.length := by simpa using hl2
      omega
  · exact dropPref_none_extend b (Nat.le_of_lt hlen)
      (Option.isNone_iff_eq_none.mp hl2)

theorem dropPref_none_of_cross {lit y₁ t : List Char} (hy : y₁ ≠ [])
    (hnp : lit.isPrefixOf y₁ = false)
    (hcross : ∀ l₁ l₂, lit = l₁ ++ l₂ → l₁ ≠ [] → l₂ ≠ [] →
      dropPref l₂ t = none) :
    dropPref lit (y₁ ++ t) = none := by
  cases hd : dropPref lit (y₁ ++ t) with
  | none => rfl
  | some r =>
    exfalso
    rcases dropPref_cross hd with ⟨y₂, hy₂, -⟩ | ⟨l₁, l₂, hl, hyl, hne, hdp⟩
    · rw [hy₂, isPrefixOf_append_self] at hnp
      exact absurd hnp (by simp)
    · have h1 : l₁ ≠ [] := by
        intro h0
        subst h0
        exact hy hyl
      rw [hcross l₁ l₂ hl h1 hne] at hdp
      exact absurd hdp (by simp)

theorem scanTo_boundary {lit y b : List Char} (hlit : lit ≠ [])
    (hnl : noNLb y = true) (hno : noOccurB lit y = true)
    (hov : noStrictOverlap lit = true) :
    scanTo lit (y ++ (lit ++ b)) = some (y, b) := by
  induction y with
  | nil =>
    cases lit with
    | nil => exact absurd rfl hlit
    | cons c cs =>
      rw [List.nil_append, List.cons_append, scanTo,
        show c :: (cs ++ b) = (c :: cs) ++ b from rfl,
        dropPref_append (c :: cs) b]
  | cons c y' ih =>
    rw [noNLb_cons, Bool.and_eq_true] at hnl
    obtain ⟨hc, hy'⟩ := hnl
    rw [List.cons_append, scanTo,
      show c :: (y' ++ (lit ++ b)) = (c :: y') ++ (lit ++ b) from rfl,
      dropPref_none_of_cross (by simp)
        (noOccurB_no_lit_start hno (List.suffix_refl _))
        (cross_of_noStrictOverlap hov b)]
    dsimp only
    have hnlc : isNL c = false := by simpa using hc
    rw [hnlc]
    simp only [Bool.false_eq_true, if_false]
    rw [ih hy' (noOccurB_suffix hno (List.suffix_cons c y'))]

theorem scanHref_eq_none {s : List Char}
    (h : ∀ suf, suf <:+ s → dropPref "\">".data suf = none) :
    scanHref s = none := by
  induction s with
  | nil => rfl
  | cons c cs ih =>
    rw [scanHref, h (c :: cs) (List.suffix_refl _)]
    dsimp only
    cases hnl : isNL c with
    | true => simp [hnl]
    | false =>
      simp only [hnl, Bool.false_eq_true, if_false]
      rw [ih (fun suf hs => h suf (hs.trans (List.suffix_cons c cs)))]

theorem splitFirst_head_match {α : Type} {p : List Char → Option (α × List Char)}
    {s r : List Char} {a : α} (h : p s = some (a, r)) :
    splitFirst p s = some ([], a, r) := by
  cases s with
  | nil => rw [splitFirst, h]
  | cons c cs => rw [splitFirst, h]

theorem suffix_append_cases {suf a b : List Char} (h : suf <:+ a ++ b) :
    suf <:+ b ∨ ∃ a', a' <:+ a ∧ a' ≠ [] ∧ suf = a' ++ b := by
  induction a with
  | nil => exact Or.inl (by simpa using h)
  | cons c a' ih =>
    rw [List.cons_append, List.suffix_cons_iff] at h
    rcases h with h | h
    · exact Or.inr ⟨c :: a', List.suffix_refl _, by simp, by simpa using h⟩
    · rcases ih h with h' | ⟨a'', ha, hne, heq⟩
      · exact Or.inl h'
      · exact Or.inr ⟨a'', ha.trans (List.suffix_cons c a'), hne, heq⟩

theorem suffix_append3 {suf A x C : List Char} (h : suf <:+ A ++ (x ++ C)) :
    (∃ a, a <:+ A ∧ a ≠ [] ∧ suf = a ++ (x ++ C)) ∨
    (∃ y, y <:+ x ∧ y ≠ [] ∧ suf = y ++ C) ∨ suf <:+ C := by
  rcases suffix_append_cases h with h' | ⟨a, ha, hne, heq⟩
  · rcases suffix_append_cases h' with h'' | ⟨y, hy, hyne, heq⟩
    · exact Or.inr (Or.inr h'')
    · exact Or.inr (Or.inl ⟨y, hy, hyne, heq⟩)
  · exact Or.inl ⟨a, ha, hne, heq⟩

theorem scanHref_boundary {h t b : List Char}
    (hnlh : noNLb h = true) (hnlt : noNLb t = true)
    (hnoh : noOccurB "\">".data h = true)
    (hnot : noOccurB "</a>".data t = true) :
    scanHref (h ++ ("\">".data ++ (t ++ ("</a>".data ++ b)))) =
      some ((h, t), b) := by
  induction h with
  | nil =>
    rw [List.nil_append,
      show "\">".data ++ (t ++ ("</a>".data ++ b)) =
        '"' :: '>' :: (t ++ ("</a>".data ++ b)) from rfl, scanHref,
      show '"' :: '>' :: (t ++ ("</a>".data ++ b)) =
        "\">".data ++ (t ++ ("</a>".data ++ b)) from rfl,
      dropPref_append]
    dsimp only
    rw [scanTo_boundary (by decide) hnlt hnot (by decide)]
  | cons c h' ih =>
    rw [List.cons_append, scanHref,
      show c :: (h' ++ ("\">".data ++ (t ++ ("</a>".data ++ b)))) =
        (c :: h') ++ ("\">".data ++ (t ++ ("</a>".data ++ b))) from rfl,
      dropPref_none_of_cross (by simp)
        (noOccurB_no_lit_start hnoh (List.suffix_refl _))
        (cross_of_noStrictOverlap (by decide) (t ++ ("</a>".data ++ b)))]
    dsimp only
    rw [noNLb_cons, Bool.and_eq_true] at hnlh
    obtain ⟨hc, hh'⟩ := hnlh
    have hnlc : isNL c = false := by simpa using hc
    rw [hnlc]
    simp only [Bool.false_eq_true, if_false]
    rw [ih hh' (noOccurB_suffix hnoh (List.suffix_cons c h'))]

/-- "In the Markup Restorer, anchor-style spans are matched as whole
    units, the anchor rule consuming each entire tag pair atomically and
    producing URL|display — and this pass runs before the ignore-span
    unwrapping; however (amending C6) the emoji and mrkdwn unwrapping
    passes run before the anchor pass, so spans of those kinds inside
    anchor content are unwrapped first."  (Claim C6, amended) -/
theorem c6_amended_anchor_atomic (h t rest : List Char)
    (hnlh : noNLb h = true) (hnlt : noNLb t = true)
    (hnoh : noOccurB "\">".data h = true)
    (hnot : noOccurB "</a>".data t = true) :
    anchorRestorePass (anchorText h t ++ rest) =
      ('<' :: h ++ '|' :: t ++ ['>']) ++ anchorRestorePass rest ∧
    (∀ s, restoreL s =
      ignoreRestorePass (anchorRestorePass (mrkdwnRestorePass
        (emojiRestorePass s)))) := by
  constructor
  · have hcore : pAnchorCore (anchorText h t ++ rest) = some ((h, t), rest) := by
      rw [show anchorText h t ++ rest = "<a href=\"".data ++
          (h ++ ("\">".data ++ (t ++ ("</a>".data ++ rest)))) from by
        simp [anchorText], pAnchorCore, dropPref_append]
      exact scanHref_boundary hnlh hnlt hnoh hnot
    have hcore0 : pAnchorCore (anchorText h t) = some ((h, t), []) := by
      rw [show anchorText h t = "<a href=\"".data ++
          (h ++ ("\">".data ++ (t ++ ("</a>".data ++ [])))) from by
        simp [anchorText], pAnchorCore, dropPref_append]
      exact scanHref_boundary hnlh hnlt hnoh hnot
    have hp : pAnchor (anchorText h t ++ rest) =
        some (anchorText h t, rest) := by
      rw [pAnchor, hcore]
    have hcb : anchorCb (anchorText h t) = '<' :: h ++ '|' :: t ++ ['>'] := by
      rw [anchorCb, anchorRematch, splitFirst_head_match hcore0]
    rw [anchorRestorePass,
      replaceAll_match shrinks_pAnchor (splitFirst_head_match hp), hcb]
    simp [anchorRestorePass]
  · intro s
    rfl

/-- Witness for the amended C6 at a concrete anchor tag pair. -/
theorem c6_witness :
    anchorRestorePass (anchorText "u".data "x".data ++ " tail".data) =
      ('<' :: "u".data ++ '|' :: "x".data ++ ['>']) ++
        anchorRestorePass " tail".data :=
  (c6_amended_anchor_atomic "u".data "x".data " tail".data
    (by decide) (by decide) (by decide) (by decide)).1

/-! ### Claim C10: special mentions are not round-tripped -/

theorem pEmoji_cons_ne {c : Char} {cs : List Char} (hc : c ≠ ':') :
    pEmoji (c :: cs) = none := by
  rw [pEmoji.eq_def]
  split
  · simp_all
  · rfl

theorem splitFirst_pEmoji_none_of_no_colon {s : List Char}
    (h : (':' : Char) ∉ s) : splitFirst pEmoji s = none := by
  apply splitFirst_eq_none_of
  intro suf hsuf
  cases suf with
  | nil => rfl
  | cons c cs =>
    by_cases hc : c = ':'
    · subst hc
      exact absurd (hsuf.subset (by simp)) h
    · exact pEmoji_cons_ne hc

theorem frame_pREmoji_none {x : List Char} (hgt : ('>' : Char) ∉ x) :
    splitFirst pREmoji ("<ignore>@".data ++ (x ++ "</ignore>".data)) = none := by
  apply splitFirst_eq_none_of
  intro suf hsuf
  rcases suffix_append3 hsuf with ⟨a, ha, hane, rfl⟩ | ⟨y, hy, hyne, rfl⟩ | hC
  · have hmem : a ∈ "<ignore>@".data.tails := (List.mem_tails _ _).mpr ha
    simp only [show "<ignore>@".data.tails =
      ["<ignore>@".data, "ignore>@".data, "gnore>@".data, "nore>@".data,
       "ore>@".data, "re>@".data, "e>@".data, ">@".data, "@".data, []]
      from rfl, List.mem_cons, List.not_mem_nil, or_false] at hmem
    rcases hmem with rfl | rfl | rfl | rfl | rfl | rfl | rfl | rfl | rfl | rfl
    all_goals first
      | exact absurd rfl hane
      | simp [pREmoji, dropPref]
  · cases hd : dropPref "<emoji>".data (y ++ "</ignore>".data) with
    | none => rw [pREmoji, hd]
    | some s₁ =>
      exfalso
      rcases dropPref_cross hd with ⟨y₁, hy₁, -⟩ | ⟨l₁, l₂, hl, hyl, hne, hdp⟩
      · exact hgt (hy.subset (hy₁ ▸ List.mem_append_left _ (by decide)))
      · have hmem : l₂ ∈ "<emoji>".data.tails :=
          (List.mem_tails _ _).mpr ⟨l₁, hl.symm⟩
        have hfact : ∀ l ∈ "<emoji>".data.tails,
            l = [] ∨ dropPref l "</ignore>".data = none := by decide
        rcases hfact l₂ hmem with h0 | h0
        · exact hne h0
        · rw [h0] at hdp
          exact absurd hdp (by simp)
  · have hfact : ∀ s ∈ "</ignore>".data.tails, pREmoji s = none := by decide
    exact hfact suf ((List.mem_tails _ _).mpr hC)

theorem frame_pMrkdwn_none {x : List Char} (hgt : ('>' : Char) ∉ x) :
    splitFirst pMrkdwn ("<ignore>@".data ++ (x ++ "</ignore>".data)) = none := by
  apply splitFirst_eq_none_of
  intro suf hsuf
  rcases suffix_append3 hsuf with ⟨a, ha, hane, rfl⟩ | ⟨y, hy, hyne, rfl⟩ | hC
  · have hmem : a ∈ "<ignore>@".data.tails := (List.mem_tails _ _).mpr ha
    simp only [show "<ignore>@".data.tails =
      ["<ignore>@".data, "ignore>@".data, "gnore>@".data, "nore>@".data,
       "ore>@".data, "re>@".data, "e>@".data, ">@".data, "@".data, []]
      from rfl, List.mem_cons, List.not_mem_nil, or_false] at hmem
    rcases hmem with rfl | rfl | rfl | rfl | rfl | rfl | rfl | rfl | rfl | rfl
    all_goals first
      | exact absurd rfl hane
      | simp [pMrkdwn, dropPref]
  · cases hd : dropPref "<mrkdwn>".data (y ++ "</ignore>".data) with
    | none => rw [pMrkdwn, hd]
    | some s₁ =>
      exfalso
      rcases dropPref_cross hd with ⟨y₁, hy₁, -⟩ | ⟨l₁, l₂, hl, hyl, hne, hdp⟩
      · exact hgt (hy.subset (hy₁ ▸ List.mem_append_left _ (by decide)))
      · have hmem : l₂ ∈ "<mrkdwn>".data.tails :=
          (List.mem_tails _ _).mpr ⟨l₁, hl.symm⟩
        have hfact : ∀ l ∈ "<mrkdwn>".data.tails,
            l = [] ∨ dropPref l "</ignore>".data = none := by decide
        rcases hfact l₂ hmem with h0 | h0
        · exact hne h0
        · rw [h0] at hdp
          exact absurd hdp (by simp)
  · have hfact : ∀ s ∈ "</ignore>".data.tails, pMrkdwn s = none := by decide
    exact hfact suf ((List.mem_tails _ _).mpr hC)

theorem frame_pAnchor_none {x : List Char} (hgt : ('>' : Char) ∉ x) :
    splitFirst pAnchor ("<ignore>@".data ++ (x ++ "</ignore>".data)) = none := by
  apply splitFirst_eq_none_of
  intro suf hsuf
  suffices h : pAnchorCore suf = none by rw [pAnchor, h]
  rcases suffix_append3 hsuf with ⟨a, ha, hane, rfl⟩ | ⟨y, hy, hyne, rfl⟩ | hC
  · have hmem : a ∈ "<ignore>@".data.tails := (List.mem_tails _ _).mpr ha
    simp only [show "<ignore>@".data.tails =
      ["<ignore>@".data, "ignore>@".data, "gnore>@".data, "nore>@".data,
       "ore>@".data, "re>@".data, "e>@".data, ">@".data, "@".data, []]
      from rfl, List.mem_cons, List.not_mem_nil, or_false] at hmem
    rcases hmem with rfl | rfl | rfl | rfl | rfl | rfl | rfl | rfl | rfl | rfl
    all_goals first
      | exact absurd rfl hane
      | simp [pAnchorCore, dropPref]
  · cases hd : dropPref "<a href=\"".data (y ++ "</ignore>".data) with
    | none => rw [pAnchorCore, hd]
    | some s₁ =>
      rcases dropPref_cross hd with ⟨y₁, hy₁, hs₁⟩ | ⟨l₁, l₂, hl, hyl, hne, hdp⟩
      · rw [pAnchorCore, hd]
        dsimp only
        rw [hs₁]
        apply scanHref_eq_none
        intro suf' hsuf'
        rcases suffix_append_cases hsuf' with hC' | ⟨y₂, hy₂, hy₂ne, rfl⟩
        · have hfact : ∀ s ∈ "</ignore>".data.tails,
              dropPref "\">".data s = none := by decide
          exact hfact suf' ((List.mem_tails _ _).mpr hC')
        · apply dropPref_none_of_cross hy₂ne
          · cases hp : "\">".data.isPrefixOf y₂ with
            | false => rfl
            | true =>
              exfalso
              apply hgt
              apply hy.subset
              have h1 : ('>' : Char) ∈ y₂ :=
                (List.isPrefixOf_iff_prefix.mp hp).subset (by decide)
              rw [hy₁]
              exact List.mem_append_right _ (hy₂.subset h1)
          · intro l₁ l₂ hl h1 h2
            have hmem : l₂ ∈ "\">".data.tails :=
              (List.mem_tails _ _).mpr ⟨l₁, hl.symm⟩
            have hfact : ∀ l ∈ "\">".data.tails,
                l = [] ∨ dropPref l "</ignore>".data = none := by decide
            rcases hfact l₂ hmem with h0 | h0
            · exact absurd h0 h2
            · exact h0
      · exfalso
        have hmem : l₂ ∈ "<a href=\"".data.tails :=
          (List.mem_tails _ _).mpr ⟨l₁, hl.symm⟩
        have hfact : ∀ l ∈ "<a href=\"".data.tails,
            l = [] ∨ dropPref l "</ignore>".data = none := by decide
        rcases hfact l₂ hmem with h0 | h0
        · exact hne h0
        · rw [h0] at hdp
          exact absurd hdp (by simp)
  · have hfact : ∀ s ∈ "</ignore>".data.tails, pAnchorCore s = none := by decide
    exact hfact suf ((List.mem_tails _ _).mpr hC)

theorem frame_ignore_unwraps {x : List Char} (hnl : noNLb x = true)
    (hgt : ('>' : Char) ∉ x) :
    ignoreRestorePass ("<ignore>@".data ++ (x ++ "</ignore>".data)) =
      '@' :: x := by
  have hgtax : ('>' : Char) ∉ '@' :: x := by
    intro h
    rcases List.mem_cons.mp h with h | h
    · exact absurd h (by decide)
    · exact hgt h
  have hsc : scanTo "</ignore>".data
      (('@' :: x) ++ ("</ignore>".data ++ [])) = some ('@' :: x, []) :=
    scanTo_boundary (by decide)
      (by rw [noNLb_cons]; simp [hnl]; decide)
      (noOccurB_of_mem_notin (show ('>' : Char) ∈ "</ignore>".data by decide)
        hgtax)
      (by decide)
  have hpi : pIgnore ("<ignore>@".data ++ (x ++ "</ignore>".data)) =
      some ('@' :: x, []) := by
    rw [show "<ignore>@".data ++ (x ++ "</ignore>".data) =
        "<ignore>".data ++ (('@' :: x) ++ ("</ignore>".data ++ [])) from by
      simp, pIgnore, dropPref_append]
    exact hsc
  rw [ignoreRestorePass,
    replaceAll_match shrinks_pIgnore (splitFirst_head_match hpi)]
  simp [replaceAll, replaceAllFuel]

theorem token_angle_pass {x : List Char} (hnl : noNLb x = true)
    (hgt : ('>' : Char) ∉ x) :
    angleProtectPass ('<' :: ('!' :: x ++ ['>'])) =
      protectPayload ('!' :: x) := by
  have hgtbx : ('>' : Char) ∉ '!' :: x := by
    intro h
    rcases List.mem_cons.mp h with h | h
    · exact absurd h (by decide)
    · exact hgt h
  have hsc : scanTo ['>'] (('!' :: x) ++ (['>'] ++ [])) =
      some ('!' :: x, []) :=
    scanTo_boundary (by decide)
      (by rw [noNLb_cons]; simp [hnl]; decide)
      (noOccurB_of_mem_notin (show ('>' : Char) ∈ ['>'] by decide) hgtbx)
      (by decide)
  have hpa : pAngle ('<' :: ('!' :: x ++ ['>'])) = some ('!' :: x, []) := by
    rw [show ('!' :: x ++ ['>'] : List Char) =
        ('!' :: x) ++ (['>'] ++ []) from by simp, pAngle]
    exact hsc
  rw [angleProtectPass,
    replaceAll_match shrinks_pAngle (splitFirst_head_match hpa)]
  simp [angleProtectPass, replaceAll, replaceAllFuel]

theorem protectPayload_special {x : List Char} (hnl : noNLb x = true)
    (hpipe : ('|' : Char) ∉ x)
    (hsub : "subteam".data.isPrefixOf x = false)
    (hdate : "date".data.isPrefixOf x = false) :
    protectPayload ('!' :: x) = "<ignore>@".data ++ (x ++ "</ignore>".data) := by
  have hnlbang : noNLb ('!' :: x) = true := by
    rw [noNLb_cons]
    simp [hnl]
    decide
  have hm : reTestMention ('!' :: x) = false := by
    simp [reTestMention, headIsHashAt]
  have hst : reTestSubteam ('!' :: x) = false := by
    simp [reTestSubteam, List.isPrefixOf, hsub]
  have hdt : reTestDate ('!' :: x) = false := by
    simp [reTestDate, List.isPrefixOf, hdate]
  have hsp : reTestSpecial ('!' :: x) = true := by
    simp [reTestSpecial, headIsBang, hnlbang]
  have htake : x.takeWhile (fun c => c ≠ '|') = x :=
    List.takeWhile_eq_self_iff.mpr (fun c hc => by
      simp
      exact fun h => hpipe (h ▸ hc))
  rw [protectPayload]
  simp only [hm, hst, hdt, hsp, Bool.false_eq_true, if_false, if_true,
    reExecSpecial, hsp, List.drop_one, List.tail_cons, htake]
  simp

/-- "The protect-then-restore round trip is not the identity on
    special-mention tokens: for every payload x of non-newline characters,
    not starting with subteam or date, with no pipe and not starting with
    # or @, and (amending C10) containing no '>' and no ':' character, the
    token <!x> is mapped by protect to an ignore span holding @x and then
    by restore to the plain text @x, losing the original angle-bracket
    form."  (Claim C10, amended) -/
theorem c10_amended_special_mention_lossy (x : List Char)
    (hnl : noNLb x = true) (hgt : ('>' : Char) ∉ x)
    (hcol : (':' : Char) ∉ x) (hpipe : ('|' : Char) ∉ x)
    (hsub : "subteam".data.isPrefixOf x = false)
    (hdate : "date".data.isPrefixOf x = false) :
    protect ⟨'<' :: ('!' :: x ++ ['>'])⟩ =
      ⟨"<ignore>@".data ++ (x ++ "</ignore>".data)⟩ ∧
    restore (protect ⟨'<' :: ('!' :: x ++ ['>'])⟩) = ⟨'@' :: x⟩ := by
  have hcolf : (':' : Char) ∉ "<ignore>@".data ++ (x ++ "</ignore>".data) := by
    intro h
    rcases List.mem_append.mp h with h | h
    · exact absurd h (by decide)
    · rcases List.mem_append.mp h with h | h
      · exact hcol h
      · exact absurd h (by decide)
  have hprot : protectL ('<' :: ('!' :: x ++ ['>'])) =
      "<ignore>@".data ++ (x ++ "</ignore>".data) := by
    rw [protectL, token_angle_pass hnl hgt, protectPayload_special hnl hpipe hsub hdate,
      emojiProtectPass, replaceAll_nomatch (splitFirst_pEmoji_none_of_no_colon hcolf)]
  have hrest : restoreL ("<ignore>@".data ++ (x ++ "</ignore>".data)) =
      '@' :: x := by
    rw [restoreL, emojiRestorePass,
      replaceAll_nomatch (frame_pREmoji_none hgt), mrkdwnRestorePass,
      replaceAll_nomatch (frame_pMrkdwn_none hgt), anchorRestorePass,
      replaceAll_nomatch (frame_pAnchor_none hgt), frame_ignore_unwraps hnl hgt]
  constructor
  · show (⟨protectL ('<' :: ('!' :: x ++ ['>']))⟩ : String) = _
    rw [hprot]
  · show (⟨restoreL (protectL ('<' :: ('!' :: x ++ ['>'])))⟩ : String) = _
    rw [hprot, hrest]

/-- Witness for the amended C10 at the payload "here". -/
theorem c10_witness :
    protect "<!here>" = "<ignore>@here</ignore>" ∧
    restore (protect "<!here>") = "@here" := by
  have h := c10_amended_special_mention_lossy "here".data (by decide)
    (by decide) (by decide) (by decide) (by decide) (by decide)
  have he : ("<!here>" : String) = ⟨'<' :: ('!' :: "here".data ++ ['>'])⟩ := by
    decide
  constructor
  · rw [he]
    exact h.1.trans (by decide)
  · rw [he]
    exact h.2.trans (by decide)

set_option maxRecDepth 100000 in
/-- Witness for C2: with secret "s", timestamp "0" and body "b", exactly
    the correct signature header is accepted and the request processed. -/
theorem c2_witness :
    handlerSlackEvents 0 (some "0")
      (some "v0=6c02ebfba923930ba9a8d0e69b0c10df5a2057d1d9e2949f01a67931c4389ce0")
      "b" "s" (fun bd => ⟨200, bd, true⟩) = ⟨200, "b", true⟩ := by
  rw [c2_signature_exactness 0 "s" "0" "b" _ _ (by decide) (by decide),
    if_pos (by decide)]

set_option maxRecDepth 100000 in
/-- Witness for C9: the non-numeric timestamp "abc" passes the replay
    guard, and the request is then rejected only because the signature
    "x" differs from the computed one. -/
theorem c9_witness :
    replayRejects 0 "abc" = false ∧
    handlerSlackEvents 0 (some "abc") (some "x") "b" "s"
      (fun bd => ⟨200, bd, true⟩) = ⟨401, "Unauthorized", false⟩ := by
  obtain ⟨h1, h2⟩ := c9_nan_timestamp_passes_guard 0 "abc" "x" "b" "s"
    (fun bd => ⟨200, bd, true⟩) (by decide) (by decide)
  exact ⟨h1, by rw [h2, if_neg (by decide)]⟩
